import Mathlib

/-!
Shallow embedding of the AutoCode kanban tool
(`src/get-shit-done/tools/kanban.js`): the todo-file store
(`readTodos`, `parseFrontmatter`), the id validation (`safeBasename`) and
the `/api/move` and `/api/todos` request handlers.

The two status directories (`.planning/todos/pending`, `.planning/todos/done`)
are modelled as association lists from filename to file content; a content of
`none` stands for an entry whose `readFileSync` throws (unreadable or deleted
between listing and reading).  `fs.renameSync` is modelled with POSIX
semantics (the destination entry, if any, is replaced) together with an
environmental failure flag: whether a given rename raises (permissions, disk
error, ...) is decided by the operating system, so the handler is
parameterised over it and both branches of the `try/catch` are proved about.

JS `Array.prototype.sort()` on the filename strings (code-unit lexicographic
order) is embedded as `List.insertionSort (· ≤ ·)` on `String`; JS string
indices (UTF-16 code units) are modelled as code-point positions, which agree
on all the ASCII data the tool handles.
-/

namespace Kanban

/-- The two todo statuses; `status` of an item is derived from which
directory holds its file. -/
inductive Status
  | pending
  | done
deriving Repr, DecidableEq

def Status.other : Status → Status
  | .pending => .done
  | .done => .pending

/-- The wire string for a status, as compared against `data.to`. -/
def Status.str : Status → String
  | .pending => "pending"
  | .done => "done"

/-- A status directory: filenames with their contents.  `none` content means
reading the file throws. -/
abbrev Dir := List (String × Option String)

/-- Association-list access (JS object property access / per-filename
directory access: the first entry with the key, keys being unique). -/
def alookup {β : Type} : List (String × β) → String → Option β
  | [], _ => none
  | (k, v) :: d, n => if n = k then some v else alookup d n

/-- The pair of managed directories (both exist: `ensureTodoDirs` created
them at startup). -/
structure FS where
  pending : Dir
  done : Dir
deriving Repr, DecidableEq

def FS.dirOf (fs : FS) : Status → Dir
  | .pending => fs.pending
  | .done => fs.done

/-! ## String primitives

Char-list recursions standing for the JS string operations (and kept
kernel-reducible so that concrete runs evaluate by `decide`). -/

/-- JS `s.endsWith(suf)`. -/
def strEndsWith (s suf : String) : Bool :=
  suf.data.isSuffixOf s.data

/-- JS `s.startsWith(pre)`. -/
def strStartsWith (s pre : String) : Bool :=
  pre.data.isPrefixOf s.data

/-- JS `\s` for the characters that can occur inside a frontmatter line. -/
def jsWhitespace (c : Char) : Bool :=
  c == ' ' || c == '\t' || c == '\r' || c == '\n' || c == '\x0b' || c == '\x0c'

/-- JS `s.trim()`: whitespace removed from both ends. -/
def jsTrim (s : String) : String :=
  String.mk (((s.data.dropWhile jsWhitespace).reverse.dropWhile jsWhitespace).reverse)

/-- Code-unit lexicographic `≤` on strings, the order of the default JS
`Array.prototype.sort()` comparator (all data here is ASCII, where code
units and code points agree). -/
def charListLe : List Char → List Char → Bool
  | [], _ => true
  | _ :: _, [] => false
  | a :: as, b :: bs =>
    decide (a.toNat < b.toNat) ||
      (decide (a.toNat = b.toNat) && charListLe as bs)

def strLe (a b : String) : Prop :=
  charListLe a.data b.data = true

instance : DecidableRel strLe := fun a b =>
  inferInstanceAs (Decidable (charListLe a.data b.data = true))

/-! ## Id validation (`safeBasename`, kanban.js lines 67-72) -/

/-- The character class `[a-zA-Z0-9._-]` of the id regex. -/
def isIdChar (c : Char) : Bool :=
  c.isAlpha || c.isDigit || c == '.' || c == '_' || c == '-'

/-- Node `path.posix.basename`: drop trailing separators, then take the
suffix after the last separator. -/
def posixBasename (s : String) : String :=
  let t := (s.data.reverse.dropWhile (· == '/')).reverse
  String.mk ((t.reverse.takeWhile (fun c => c ≠ '/')).reverse)

/-- The test `/^[a-zA-Z0-9._-]+\.md$/.test base`: a nonempty run of allowed
characters followed by the literal `.md`. -/
def matchesIdPattern (s : String) : Bool :=
  strEndsWith s ".md" && decide (4 ≤ s.data.length) &&
    (s.data.take (s.data.length - 3)).all isIdChar

/-- The validator `safeBasename` (kanban.js lines 67-72): `null` becomes
`none`. -/
def safeBasename (name : String) : Option String :=
  let base := posixBasename name
  if base ≠ name then none
  else if ¬ matchesIdPattern base then none
  else some base

/-! ## Move handler (`/api/move`, kanban.js lines 413-441), from the point
where `data.id` and `data.to` have been coerced to strings (for string
inputs, `String(x || '')` is the identity). -/

/-- The possible JSON responses of the move handler. -/
inductive MoveOutcome
  | ok
  | invalidId
  | invalidDest
  | notFound
  | renameError
deriving Repr, DecidableEq

/-- The HTTP status code each outcome is sent with. -/
def MoveOutcome.httpCode : MoveOutcome → Nat
  | .ok => 200
  | .invalidId => 400
  | .invalidDest => 400
  | .notFound => 404
  | .renameError => 500

/-- Whether the response body carries an `error` string (all failures do;
success carries `{ ok: true }` instead). -/
def MoveOutcome.hasErrorString : MoveOutcome → Bool
  | .ok => false
  | _ => true

/-- Remove a filename from a directory (the source side of a rename). -/
def dirRemove : Dir → String → Dir
  | [], _ => []
  | (k, v) :: d, name =>
    if k = name then dirRemove d name else (k, v) :: dirRemove d name

/-- Write a filename into a directory (the destination side of a rename;
POSIX `rename` replaces an existing destination entry). -/
def dirSet (d : Dir) (name : String) (content : Option String) : Dir :=
  dirRemove d name ++ [(name, content)]

/-- The `/api/move` handler body (kanban.js lines 426-440).  `renameErr`
is the environmental flag for `fs.renameSync` throwing. -/
def handleMove (fs : FS) (idRaw toStr : String) (renameErr : Bool) :
    FS × MoveOutcome :=
  match safeBasename idRaw with
  | none => (fs, .invalidId)
  | some id =>
    if toStr ≠ "pending" ∧ toStr ≠ "done" then (fs, .invalidDest)
    else
      let toPending := toStr == "pending"
      let fromDir := if toPending then fs.done else fs.pending
      match alookup fromDir id with
      | none => (fs, .notFound)
      | some content =>
        if renameErr then (fs, .renameError)
        else if toPending then
          ({ pending := dirSet fs.pending id content,
             done := dirRemove fs.done id }, .ok)
        else
          ({ pending := dirRemove fs.pending id,
             done := dirSet fs.done id content }, .ok)

/-! ## Frontmatter parsing (`parseFrontmatter`, kanban.js lines 74-104) -/

/-- A frontmatter value: a scalar from `key: value`, or a list started by a
bare `key:` line and extended by `- item` lines. -/
inductive FMValue
  | scalar : String → FMValue
  | list : List String → FMValue
deriving Repr, DecidableEq

/-- The `frontmatter` object: an insertion-ordered map with unique keys. -/
abbrev Frontmatter := List (String × FMValue)

/-- Assignment `frontmatter[k] = v`: replace in place if the key exists, else append
(JS object assignment keeps the original insertion position). -/
def fmSet (fm : Frontmatter) (k : String) (v : FMValue) : Frontmatter :=
  if fm.any (fun p => decide (p.1 = k)) then
    fm.map (fun p => if p.1 = k then (k, v) else p)
  else fm ++ [(k, v)]

/-- Mutation `frontmatter[k].push(x)` for a list-valued key (keys are unique, so
rewriting the matching entry in place is the object mutation). -/
def fmPush : Frontmatter → String → String → Frontmatter
  | [], _, _ => []
  | (k', v) :: fm, k, x =>
    if k' = k then
      (match v with
       | .list xs => (k', .list (xs ++ [x]))
       | v => (k', v)) :: fmPush fm k x
    else (k', v) :: fmPush fm k x

/-- The character class `[a-zA-Z0-9_-]` of the key regex. -/
def isKeyChar (c : Char) : Bool :=
  c.isAlpha || c.isDigit || c == '_' || c == '-'

/-- Key-line match `line.match(/^([a-zA-Z0-9_-]+):\s*(.*)$/)`: a nonempty run of key
characters, a colon, optional whitespace, then the value.  (The class
excludes `:`, so the greedy `+` is simply the longest key-character
prefix.) -/
def matchKeyLine (line : String) : Option (String × String) :=
  let cs := line.data
  let key := cs.takeWhile isKeyChar
  if key.isEmpty then none
  else
    match cs.drop key.length with
    | ':' :: rest => some (String.mk key, String.mk (rest.dropWhile jsWhitespace))
    | _ => none

/-- Item-line match `line.match(/^\s*-\s*(.*)$/)`: optional whitespace, a dash, optional
whitespace, then the item. -/
def matchItemLine (line : String) : Option String :=
  match line.data.dropWhile jsWhitespace with
  | '-' :: rest => some (String.mk (rest.dropWhile jsWhitespace))
  | _ => none

/-- One iteration of the frontmatter line loop (kanban.js lines 85-101);
the state is the object built so far together with `currentKey`. -/
def fmStep : Frontmatter × Option String → String → Frontmatter × Option String
  | (fm, ck), line =>
    match matchKeyLine line with
    | some (k, v) =>
      if v == "" then (fmSet fm k (.list []), some k)
      else (fmSet fm k (.scalar v), some k)
    | none =>
      match matchItemLine line with
      | some item =>
        match ck with
        | some k =>
          match alookup fm k with
          | some (.list _) => (fmPush fm k item, ck)
          | _ => (fm, ck)
        | none => (fm, ck)
      | none => (fm, ck)

/-- Splitting `fmRaw.split(/\r?\n/)`: split at every `\n`, dropping a `\r` standing
immediately before it. -/
def splitLinesAux : List Char → List Char → List String
  | [], acc => [String.mk acc.reverse]
  | c :: rest, acc =>
    if c == '\n' then
      (match acc with
       | '\r' :: t => String.mk t.reverse
       | t => String.mk t.reverse) :: splitLinesAux rest []
    else splitLinesAux rest (c :: acc)

def splitLines (s : String) : List String :=
  splitLinesAux s.data []

/-- Search `md.indexOf(pat, start)`: the first position `≥ start` where `pat`
occurs, if any. -/
def indexOfFrom (hay pat : List Char) (start : Nat) : Option Nat :=
  (List.range (hay.length + 1)).find?
    (fun i => decide (start ≤ i) && pat.isPrefixOf (hay.drop i))

structure FMParse where
  frontmatter : Frontmatter
  body : String
deriving Repr, DecidableEq

/-- The function `parseFrontmatter` (kanban.js lines 74-104). -/
def parseFrontmatter (md : String) : FMParse :=
  if ¬ strStartsWith md "---" then ⟨[], md⟩
  else
    match indexOfFrom md.data ['\n', '-', '-', '-'] 3 with
    | none => ⟨[], md⟩
    | some e =>
      let fmRaw := jsTrim (String.mk ((md.data.drop 3).take (e - 3)))
      let body := String.mk (md.data.drop (e + 4))
      let st := (splitLines fmRaw).foldl fmStep ([], none)
      ⟨st.1, body⟩

/-! ## Todo store (`readTodos`, kanban.js lines 106-133) -/

/-- One task card as the API serialises it.  (`path` — the absolute
filesystem path `path.join(dir, file)` — is derived from the directory and
`id` and carries no extra state, so it is not modelled.) -/
structure TodoItem where
  id : String
  status : Status
  title : String
  area : String
  created : String
  files : List String
deriving Repr, DecidableEq

/-- JS `Array.prototype.toString`: elements joined with commas. -/
def joinCommas : List String → String
  | [] => ""
  | [x] => x
  | x :: xs => x ++ "," ++ joinCommas xs

/-- Coercion `(frontmatter.k || '').toString()`: a missing key gives `''`; an array
(always truthy in JS, even empty) stringifies by joining with commas. -/
def fmDisplay : Option FMValue → String
  | none => ""
  | some (.scalar s) => s
  | some (.list xs) => joinCommas xs

/-- JS `file.replace(/\.md$/, '')`. -/
def stripMdSuffix (file : String) : String :=
  if strEndsWith file ".md" then String.mk (file.data.take (file.data.length - 3))
  else file

/-- The per-file body of `readTodos` (kanban.js lines 117-131), applied to a
filename and the content that was read (after the read-failure catch). -/
def todoOfFile (file : String) (md : String) (status : Status) : TodoItem :=
  let fm := (parseFrontmatter md).frontmatter
  let title0 := jsTrim (fmDisplay (alookup fm "title"))
  let area0 := jsTrim (fmDisplay (alookup fm "area"))
  let created := jsTrim (fmDisplay (alookup fm "created"))
  let filesField :=
    match alookup fm "files" with
    | some (.list xs) => xs
    | _ => []
  { id := file
    status := status
    title := if title0 == "" then stripMdSuffix file else title0
    area := if area0 == "" then "general" else area0
    created := created
    files := filesField }

/-- The function `readTodos` (kanban.js lines 106-133).  `none` for the directory means
`fs.existsSync dir` is false; an entry whose content is `none` is one whose
`readFileSync` throws, caught and replaced by `''`. -/
def readTodos (dir : Option Dir) (status : Status) : List TodoItem :=
  match dir with
  | none => []
  | some d =>
    let files :=
      List.insertionSort strLe
        ((d.map Prod.fst).filter (fun f => strEndsWith f ".md"))
    files.map (fun file => todoOfFile file (((alookup d file).join).getD "") status)

/-- The `GET /api/todos` handler (kanban.js lines 408-412): a pure read of
both directories. -/
def handleTodos (fs : FS) : FS × (List TodoItem × List TodoItem) :=
  (fs, (readTodos (some fs.pending) .pending, readTodos (some fs.done) .done))

/-! ## Helper lemmas -/

theorem alookup_append {β : Type} (l₁ l₂ : List (String × β)) (a : String) :
    alookup (l₁ ++ l₂) a =
      match alookup l₁ a with
      | some v => some v
      | none => alookup l₂ a := by
  induction l₁ with
  | nil => rfl
  | cons p l₁ ih =>
    obtain ⟨k, v⟩ := p
    by_cases hn : a = k <;> simp [alookup, hn, ih]

theorem alookup_dirRemove_self (d : Dir) (a : String) :
    alookup (dirRemove d a) a = none := by
  induction d with
  | nil => rfl
  | cons p d ih =>
    obtain ⟨k, v⟩ := p
    by_cases h : k = a
    · simpa [dirRemove, h] using ih
    · simpa [dirRemove, alookup, h, Ne.symm h] using ih

theorem alookup_dirRemove_ne (d : Dir) {n a : String} (h : n ≠ a) :
    alookup (dirRemove d a) n = alookup d n := by
  induction d with
  | nil => rfl
  | cons p d ih =>
    obtain ⟨k, v⟩ := p
    by_cases hp : k = a
    · simp [dirRemove, alookup, hp, h, ih]
    · by_cases hn : n = k <;> simp [dirRemove, alookup, hp, hn, ih]

theorem alookup_dirSet_self (d : Dir) (a : String) (c : Option String) :
    alookup (dirSet d a c) a = some c := by
  rw [dirSet, alookup_append, alookup_dirRemove_self]
  simp [alookup]

theorem alookup_dirSet_ne (d : Dir) {n a : String} (c : Option String) (h : n ≠ a) :
    alookup (dirSet d a c) n = alookup d n := by
  rw [dirSet, alookup_append, alookup_dirRemove_ne d h]
  rcases alookup d n with _ | v <;> simp [alookup, h]

/-- A key looked up as `some v` is a key of the list. -/
theorem mem_keys_of_alookup_eq_some {β : Type} {d : List (String × β)} {n : String}
    {v : β} (h : alookup d n = some v) : n ∈ d.map Prod.fst := by
  induction d with
  | nil => simp [alookup] at h
  | cons p d ih =>
    obtain ⟨k, w⟩ := p
    by_cases hn : n = k
    · simp [hn]
    · simp [alookup, hn] at h
      simp [ih h]

theorem charListLe_total : ∀ as bs, charListLe as bs = true ∨ charListLe bs as = true
  | [], _ => .inl rfl
  | _ :: _, [] => .inr rfl
  | a :: as, b :: bs => by
    rcases Nat.lt_trichotomy a.toNat b.toNat with h | h | h
    · left; simp [charListLe, h]
    · rcases charListLe_total as bs with ih | ih
      · left; simp [charListLe, h, ih]
      · right; simp [charListLe, h.symm, ih]
    · right; simp [charListLe, h]

theorem charListLe_trans : ∀ as bs cs, charListLe as bs = true →
    charListLe bs cs = true → charListLe as cs = true
  | [], _, _, _, _ => rfl
  | _ :: _, [], _, h1, _ => by simp [charListLe] at h1
  | _ :: _, _ :: _, [], _, h2 => by simp [charListLe] at h2
  | a :: as, b :: bs, c :: cs, h1, h2 => by
    simp only [charListLe, Bool.or_eq_true, Bool.and_eq_true, decide_eq_true_eq] at h1 h2 ⊢
    rcases h1 with h1 | ⟨h1e, h1r⟩ <;> rcases h2 with h2 | ⟨h2e, h2r⟩
    · exact .inl (h1.trans h2)
    · exact .inl (h2e ▸ h1)
    · exact .inl (h1e ▸ h2)
    · exact .inr ⟨h1e.trans h2e, charListLe_trans as bs cs h1r h2r⟩

/-- The result of `posixBasename` never contains a separator. -/
theorem posixBasename_no_slash (s : String) : '/' ∉ (posixBasename s).data := by
  intro h
  simp only [posixBasename, String.mk] at h
  rw [List.mem_reverse] at h
  have := List.mem_takeWhile_imp h
  simp at this

/-- A string containing a separator is changed by `posixBasename`. -/
theorem posixBasename_ne_of_slash {s : String} (h : '/' ∈ s.data) :
    posixBasename s ≠ s := by
  intro he
  exact posixBasename_no_slash s (by rw [he]; exact h)

/-- The validator rejects separators and pattern failures. -/
theorem safeBasename_eq_none {s : String}
    (h : '/' ∈ s.data ∨ matchesIdPattern s = false) : safeBasename s = none := by
  rcases h with h | h
  · simp [safeBasename, posixBasename_ne_of_slash h]
  · by_cases hb : posixBasename s = s
    · simp [safeBasename, hb, h]
    · simp [safeBasename, hb]

theorem todoOfFile_id (f md : String) (s : Status) : (todoOfFile f md s).id = f := rfl

theorem alookup_fmPush {fm : Frontmatter} {k : String} {xs : List String}
    (item : String) (h : alookup fm k = some (.list xs)) :
    alookup (fmPush fm k item) k = some (.list (xs ++ [item])) := by
  induction fm with
  | nil => simp [alookup] at h
  | cons p fm ih =>
    obtain ⟨k', v'⟩ := p
    by_cases hk : k = k'
    · subst hk
      simp only [alookup, if_pos rfl] at h
      cases h
      simp [fmPush, alookup]
    · simp only [alookup, if_neg hk] at h
      simp [fmPush, alookup, Ne.symm hk, hk, ih h]

/-! ## Claims -/

/-- C1: for every id that is a valid single-segment filename matching the
restricted pattern and whose file is present in the directory for status
`s`, a `POST /api/move` with that id and `to = s.other` succeeds (`{ ok:
true }`, HTTP 200), after which the file exists in the directory for
`s.other` and no longer exists in the directory for `s`; the handler
resolves the source directory as the directory for the status not equal to
`to`. -/
theorem move_valid_present_succeeds (fs : FS) (id : String) (c : Option String)
    (s : Status) (hid : safeBasename id = some id)
    (hsrc : alookup (fs.dirOf s) id = some c) :
    (handleMove fs id s.other.str false).2 = .ok ∧
    (handleMove fs id s.other.str false).2.httpCode = 200 ∧
    alookup ((handleMove fs id s.other.str false).1.dirOf s.other) id = some c ∧
    alookup ((handleMove fs id s.other.str false).1.dirOf s) id = none := by
  cases s <;>
    simp_all [handleMove, hid, hsrc, Status.other, Status.str, FS.dirOf,
      MoveOutcome.httpCode, alookup_dirSet_self, alookup_dirRemove_self]

theorem move_valid_present_succeeds_witness :
    safeBasename "a1.md" = some "a1.md" ∧
    alookup (FS.dirOf ⟨[("a1.md", some "x")], []⟩ .pending) "a1.md" = some (some "x") ∧
    (handleMove ⟨[("a1.md", some "x")], []⟩ "a1.md" Status.pending.other.str false).2
      = .ok := by
  refine ⟨by decide, by decide, ?_⟩
  exact (move_valid_present_succeeds ⟨[("a1.md", some "x")], []⟩ "a1.md" (some "x")
    .pending (by decide) (by decide)).1

/-- C2: every id string containing a path separator (its base name differs
from the original), or not matching the restricted `.md` filename pattern,
makes `POST /api/move` return a validation error (HTTP 400 with an error
string) and leaves the filesystem untouched. -/
theorem move_bad_id_rejected (fs : FS) (id toStr : String) (err : Bool)
    (h : '/' ∈ id.data ∨ matchesIdPattern id = false) :
    handleMove fs id toStr err = (fs, .invalidId) ∧
    MoveOutcome.invalidId.httpCode = 400 ∧
    MoveOutcome.invalidId.hasErrorString = true := by
  refine ⟨?_, rfl, rfl⟩
  simp [handleMove, safeBasename_eq_none h]

theorem move_bad_id_rejected_witness :
    ('/' ∈ ("../../etc/passwd" : String).data ∨
      matchesIdPattern "../../etc/passwd" = false) ∧
    handleMove ⟨[("a1.md", some "x")], []⟩ "../../etc/passwd" "done" false
      = (⟨[("a1.md", some "x")], []⟩, .invalidId) := by
  refine ⟨.inl (by decide), ?_⟩
  exact (move_bad_id_rejected ⟨[("a1.md", some "x")], []⟩ "../../etc/passwd" "done"
    false (.inl (by decide))).1

/-- C3: a well-formed move request whose id passes validation but is not
present in the inferred source directory (the directory for the status
other than `to`) returns a not-found error (HTTP 404) and leaves both
directories exactly as they were. -/
theorem move_missing_source_not_found (fs : FS) (id : String) (s : Status)
    (err : Bool) (hid : safeBasename id = some id)
    (habs : alookup (fs.dirOf s.other) id = none) :
    handleMove fs id s.str err = (fs, .notFound) ∧
    MoveOutcome.notFound.httpCode = 404 := by
  refine ⟨?_, rfl⟩
  cases s <;>
    simp_all [handleMove, hid, habs, Status.other, Status.str, FS.dirOf]

theorem move_missing_source_not_found_witness :
    safeBasename "missing.md" = some "missing.md" ∧
    alookup (FS.dirOf ⟨[("a1.md", some "x")], []⟩ Status.pending.other) "missing.md"
      = none ∧
    handleMove ⟨[("a1.md", some "x")], []⟩ "missing.md" Status.pending.str false
      = (⟨[("a1.md", some "x")], []⟩, .notFound) := by
  refine ⟨by decide, by decide, ?_⟩
  exact (move_missing_source_not_found ⟨[("a1.md", some "x")], []⟩ "missing.md"
    .pending false (by decide) (by decide)).1

/-- C6: for a valid id whose file is in the pending directory (and, per the
data-model invariant, in no other), a successful move pending→done followed
by a successful move done→pending restores the directory pair: the same
file with the same content is back in pending, and neither directory's
contents otherwise changed. -/
theorem move_round_trip (fs : FS) (id : String) (c : Option String)
    (hid : safeBasename id = some id)
    (hp : alookup fs.pending id = some c)
    (hd : alookup fs.done id = none) :
    (handleMove fs id "done" false).2 = .ok ∧
    (handleMove (handleMove fs id "done" false).1 id "pending" false).2 = .ok ∧
    alookup (handleMove (handleMove fs id "done" false).1 id "pending" false).1.pending
      id = some c ∧
    (∀ n, alookup (handleMove (handleMove fs id "done" false).1 id "pending" false).1.pending n
      = alookup fs.pending n) ∧
    (∀ n, alookup (handleMove (handleMove fs id "done" false).1 id "pending" false).1.done n
      = alookup fs.done n) := by
  have h1 : handleMove fs id "done" false =
      ({ pending := dirRemove fs.pending id, done := dirSet fs.done id c }, .ok) := by
    simp [handleMove, hid, hp]
  have h2 : handleMove (FS.mk (dirRemove fs.pending id) (dirSet fs.done id c))
      id "pending" false =
      (FS.mk (dirSet (dirRemove fs.pending id) id c)
        (dirRemove (dirSet fs.done id c) id), .ok) := by
    simp [handleMove, hid, alookup_dirSet_self]
  rw [h1]
  simp only [h2]
  refine ⟨trivial, trivial, ?_, ?_, ?_⟩
  · rw [alookup_dirSet_self]
  · intro n
    by_cases hn : n = id
    · subst hn; rw [alookup_dirSet_self, hp]
    · rw [alookup_dirSet_ne _ _ hn, alookup_dirRemove_ne _ hn]
  · intro n
    by_cases hn : n = id
    · subst hn; rw [alookup_dirRemove_self, hd]
    · rw [alookup_dirRemove_ne _ hn, alookup_dirSet_ne _ _ hn]

theorem move_round_trip_witness :
    safeBasename "a1.md" = some "a1.md" ∧
    alookup ([("a1.md", some "x"), ("z.md", some "z")] : Dir) "a1.md" = some (some "x") ∧
    alookup ([("q.md", some "q")] : Dir) "a1.md" = none ∧
    alookup (handleMove (handleMove
        (FS.mk [("a1.md", some "x"), ("z.md", some "z")] [("q.md", some "q")])
        "a1.md" "done" false).1 "a1.md" "pending" false).1.pending
        "a1.md" = some (some "x") := by
  refine ⟨by decide, by decide, by decide, ?_⟩
  exact (move_round_trip
    (FS.mk [("a1.md", some "x"), ("z.md", some "z")] [("q.md", some "q")])
    "a1.md" (some "x") (by decide) (by decide) (by decide)).2.2.1

/-- C8: for a validated move whose source file exists, the operation is a
single rename preserving the filename: if the rename raises, the request
fails with HTTP 500 and an error string and the directories are unchanged
(no partial state); if it does not, the file is at the destination under
the same name, gone from the source, and no other entry of either
directory changes. -/
theorem move_rename_outcome (fs : FS) (id : String) (c : Option String) (s : Status)
    (err : Bool) (hid : safeBasename id = some id)
    (hsrc : alookup (fs.dirOf s.other) id = some c) :
    (err = true →
      handleMove fs id s.str err = (fs, .renameError) ∧
      MoveOutcome.renameError.httpCode = 500 ∧
      MoveOutcome.renameError.hasErrorString = true) ∧
    (err = false →
      (handleMove fs id s.str err).2 = .ok ∧
      alookup ((handleMove fs id s.str err).1.dirOf s) id = some c ∧
      alookup ((handleMove fs id s.str err).1.dirOf s.other) id = none ∧
      (∀ n, n ≠ id →
        alookup ((handleMove fs id s.str err).1.pending) n = alookup fs.pending n ∧
        alookup ((handleMove fs id s.str err).1.done) n = alookup fs.done n)) := by
  constructor
  · rintro rfl
    refine ⟨?_, rfl, rfl⟩
    cases s <;> simp_all [handleMove, hid, hsrc, Status.other, Status.str, FS.dirOf]
  · rintro rfl
    cases s
    · have hs : alookup fs.done id = some c := by
        simpa [FS.dirOf, Status.other] using hsrc
      have hmv : handleMove fs id "pending" false =
          (FS.mk (dirSet fs.pending id c) (dirRemove fs.done id), .ok) := by
        simp [handleMove, hid, hs]
      simp only [Status.str, hmv, FS.dirOf, Status.other]
      refine ⟨trivial, by rw [alookup_dirSet_self], by rw [alookup_dirRemove_self], ?_⟩
      intro n hn
      exact ⟨by rw [alookup_dirSet_ne _ _ hn], by rw [alookup_dirRemove_ne _ hn]⟩
    · have hs : alookup fs.pending id = some c := by
        simpa [FS.dirOf, Status.other] using hsrc
      have hmv : handleMove fs id "done" false =
          (FS.mk (dirRemove fs.pending id) (dirSet fs.done id c), .ok) := by
        simp [handleMove, hid, hs]
      simp only [Status.str, hmv, FS.dirOf, Status.other]
      refine ⟨trivial, by rw [alookup_dirSet_self], by rw [alookup_dirRemove_self], ?_⟩
      intro n hn
      exact ⟨by rw [alookup_dirRemove_ne _ hn], by rw [alookup_dirSet_ne _ _ hn]⟩

theorem move_rename_outcome_witness :
    safeBasename "a1.md" = some "a1.md" ∧
    alookup (FS.dirOf ⟨[("a1.md", some "x")], []⟩ Status.done.other) "a1.md"
      = some (some "x") ∧
    handleMove ⟨[("a1.md", some "x")], []⟩ "a1.md" Status.done.str true
      = (⟨[("a1.md", some "x")], []⟩, .renameError) := by
  refine ⟨by decide, by decide, ?_⟩
  exact ((move_rename_outcome ⟨[("a1.md", some "x")], []⟩ "a1.md" (some "x") .done true
    (by decide) (by decide)).1 rfl).1

/-- C4: `readTodos` returns an empty collection when the directory does not
exist; otherwise it returns exactly one `TodoItem` per entry whose name ends
in `.md` (their ids are a permutation of those names), ordered
lexicographically by filename. -/
theorem readTodos_listing (s : Status) :
    readTodos none s = [] ∧
    ∀ d : Dir,
      ((readTodos (some d) s).map TodoItem.id).Perm
        ((d.map Prod.fst).filter (fun f => strEndsWith f ".md")) ∧
      ((readTodos (some d) s).map TodoItem.id).Sorted strLe := by
  refine ⟨rfl, fun d => ?_⟩
  have hids : (readTodos (some d) s).map TodoItem.id =
      List.insertionSort strLe
        ((d.map Prod.fst).filter (fun f => strEndsWith f ".md")) := by
    rw [readTodos, List.map_map]
    exact List.map_id'' (fun x => rfl) _
  rw [hids]
  exact ⟨List.perm_insertionSort strLe _,
    @List.sorted_insertionSort String strLe _
      ⟨fun a b => charListLe_total a.data b.data⟩
      ⟨fun a b c => charListLe_trans a.data b.data c.data⟩ _⟩

/-- C5: a file whose read fails is treated as having empty content and is
still listed with fallback defaults (title = filename with `.md` stripped,
area = the fixed default, no referenced files), so `readTodos` never omits
a listed file; malformed metadata (no leading marker) yields an empty
metadata set. -/
theorem readTodos_resilient (d : Dir) (s : Status) (name : String)
    (hunread : alookup d name = some none)
    (hmd : strEndsWith name ".md" = true) :
    todoOfFile name "" s ∈ readTodos (some d) s ∧
    (todoOfFile name "" s).id = name ∧
    (todoOfFile name "" s).title = stripMdSuffix name ∧
    (todoOfFile name "" s).area = "general" ∧
    (todoOfFile name "" s).created = "" ∧
    (todoOfFile name "" s).files = [] ∧
    (∀ md : String, strStartsWith md "---" = false →
      (parseFrontmatter md).frontmatter = []) := by
  refine ⟨?_, rfl, rfl, rfl, rfl, rfl, fun md h => by simp [parseFrontmatter, h]⟩
  have hkey : name ∈ (d.map Prod.fst).filter (fun f => strEndsWith f ".md") :=
    List.mem_filter.mpr ⟨mem_keys_of_alookup_eq_some hunread, hmd⟩
  have hsorted : name ∈ List.insertionSort strLe
      ((d.map Prod.fst).filter (fun f => strEndsWith f ".md")) := by
    rw [List.mem_insertionSort]; exact hkey
  refine List.mem_map.mpr ⟨name, hsorted, ?_⟩
  rw [hunread]
  rfl

theorem readTodos_resilient_witness :
    alookup ([("a.md", none)] : Dir) "a.md" = some none ∧
    strEndsWith "a.md" ".md" = true ∧
    todoOfFile "a.md" "" .pending ∈ readTodos (some [("a.md", none)]) .pending := by
  refine ⟨by decide, by decide, ?_⟩
  exact (readTodos_resilient [("a.md", none)] .pending "a.md" (by decide) (by decide)).1

/-- C7: listing is idempotent and side-effect-free: the `/api/todos` handler
leaves the directory pair unchanged, and running it again on the resulting
state returns the identical response. -/
theorem todos_idempotent (fs : FS) :
    (handleTodos fs).1 = fs ∧
    (handleTodos (handleTodos fs).1).2 = (handleTodos fs).2 :=
  ⟨rfl, rfl⟩

/-- C9: there are filenames that `GET /api/todos` lists but `POST /api/move`
always rejects: the listing filter accepts any name ending in `.md` (here
the bare name `.md`), while move validation also requires at least one
allowed character before the extension, so the listed id can never be moved
through the API. -/
theorem listed_but_unmovable :
    strEndsWith ".md" ".md" = true ∧
    (readTodos (some [(".md", some "x")]) .pending).map TodoItem.id = [".md"] ∧
    safeBasename ".md" = none ∧
    (∀ fs toStr err, handleMove fs ".md" toStr err = (fs, .invalidId)) ∧
    MoveOutcome.invalidId.httpCode = 400 := by
  refine ⟨by decide, by decide, by decide, fun fs toStr err => ?_, rfl⟩
  simp [handleMove, show safeBasename ".md" = none by decide]

/-- C10: in frontmatter parsing, a key line with an empty value is recorded
as an empty list and subsequent `- item` lines are appended to it, while a
key with a non-empty scalar value never collects items; consequently a
`title:` line with no value makes the title fall back to the filename with
the suffix stripped, and `files` is the parsed list exactly when the
`files` key was list-shaped, otherwise empty. -/
theorem frontmatter_empty_key_collects_items :
    (∀ fm ck line k, matchKeyLine line = some (k, "") →
      fmStep (fm, ck) line = (fmSet fm k (.list []), some k)) ∧
    (∀ fm ck line k v, matchKeyLine line = some (k, v) → v ≠ "" →
      fmStep (fm, ck) line = (fmSet fm k (.scalar v), some k)) ∧
    (∀ fm k xs line item, alookup fm k = some (.list xs) →
      matchKeyLine line = none → matchItemLine line = some item →
      fmStep (fm, some k) line = (fmPush fm k item, some k) ∧
      alookup (fmPush fm k item) k = some (.list (xs ++ [item]))) ∧
    (∀ fm k v line item, alookup fm k = some (.scalar v) →
      matchKeyLine line = none → matchItemLine line = some item →
      fmStep (fm, some k) line = (fm, some k)) ∧
    (∀ f md s, (todoOfFile f md s).files =
      match alookup (parseFrontmatter md).frontmatter "files" with
      | some (.list xs) => xs
      | _ => []) ∧
    (todoOfFile "t.md" "---\ntitle:\n---" .pending).title = "t" ∧
    (todoOfFile "t.md" "---\nfiles:\n- a.txt\n- b.txt\n---" .pending).files
      = ["a.txt", "b.txt"] ∧
    (todoOfFile "t.md" "---\nfiles: single\n---" .pending).files = [] := by
  refine ⟨?_, ?_, ?_, ?_, fun f md s => rfl, by decide, by decide, by decide⟩
  · intro fm ck line k h
    simp [fmStep, h]
  · intro fm ck line k v h hv
    simp [fmStep, h, hv]
  · intro fm k xs line item hl hk hi
    exact ⟨by simp [fmStep, hk, hi, hl], alookup_fmPush item hl⟩
  · intro fm k v line item hl hk hi
    simp [fmStep, hk, hi, hl]

theorem frontmatter_empty_key_collects_items_witness :
    matchKeyLine "files:" = some ("files", "") ∧
    fmStep ([], none) "files:" = ([("files", FMValue.list [])], some "files") := by
  refine ⟨by decide, ?_⟩
  have h := (frontmatter_empty_key_collects_items).1 [] none "files:" "files" (by decide)
  simpa [fmSet] using h

end Kanban
